import Mathlib

set_option maxRecDepth 4000

/- Shallow embedding of the annotation parser in src/extract_exercises.py.
   Python strings are modelled as List Char.  The regex scans of
   PAIR_RE = (\d{1,3})#\s*[x×]\s*(\d{1,3}) (IGNORECASE) and NUM_RE = \d{1,3}
   are implemented with structural recursion on an explicit fuel equal to the
   input length; every scanner step consumes at least one character, so the
   fuel-exhaustion branch is never reached on the initial call.  Warnings,
   which the Python prints to stderr, are modelled as values. -/

def pySpace (c : Char) : Bool :=
  c == ' ' || c == '\t' || c == '\n' || c == '\r' || c == '\x0B' || c == '\x0C'

def pyIsDigit (c : Char) : Bool :=
  48 ≤ c.toNat && c.toNat ≤ 57

/- str.strip with a one-character class: drop matching chars from both ends. -/
def stripChars (p : Char → Bool) (l : List Char) : List Char :=
  ((l.dropWhile p).reverse.dropWhile p).reverse

def pyStrip (l : List Char) : List Char := stripChars pySpace l

def stripCommas (l : List Char) : List Char := stripChars (fun c => c == ',') l

/- int(token) on a decimal-digit token. -/
def digitsToNat (acc : Nat) : List Char → Nat
  | [] => acc
  | c :: cs => digitsToNat (acc * 10 + (c.toNat - 48)) cs

/- _parse_number: a token of four or more digits is rejected (None, and the
   caller records a digits_too_long warning); otherwise int(token). -/
def parse_number (token : List Char) : Option Nat :=
  if 4 ≤ token.length then none else some (digitsToNat 0 token)

inductive Warning where
  | digitsTooLong (token : List Char)
  | sideCountMismatch
  deriving DecidableEq

structure SideResult where
  weights : List Nat
  reps : List Nat
  extra_text : Option (List Char)
  warnings : List Warning
  deriving DecidableEq

/- PAIR_RE first group: \d{1,3} (greedy, with backtracking) followed by '#'.
   tryWeightTok cs k succeeds when cs starts with exactly k digits and then
   '#'; matchWeightTok prefers the longest of k = 3, 2, 1, exactly as the
   greedy engine does. -/
def tryWeightTok (cs : List Char) (k : Nat) : Option (List Char × List Char) :=
  let d := cs.take k
  if d.length = k ∧ d.all pyIsDigit ∧ (cs.drop k).head? = some '#' then
    some (d, cs.drop (k + 1))
  else
    none

def matchWeightTok (cs : List Char) : Option (List Char × List Char) :=
  (tryWeightTok cs 3).orElse fun _ =>
    (tryWeightTok cs 2).orElse fun _ => tryWeightTok cs 1

/- One attempted PAIR_RE match anchored at the head of cs: weight digits, '#',
   \s*, x/X/× (IGNORECASE keeps ×), \s*, then 1-3 greedy digits.  Returns the
   two captured groups and the remainder after the matched span. -/
def matchPairAt (cs : List Char) : Option (List Char × List Char × List Char) :=
  match matchWeightTok cs with
  | none => none
  | some (w, r1) =>
    match r1.dropWhile pySpace with
    | [] => none
    | c :: r3 =>
      if c == 'x' || c == 'X' || c == '×' then
        let r4 := r3.dropWhile pySpace
        let rtok := (r4.takeWhile pyIsDigit).take 3
        if rtok.isEmpty then none else some (w, rtok, r4.drop rtok.length)
      else none

/- PAIR_RE.finditer and PAIR_RE.sub("", ·) in one pass: leftmost
   non-overlapping matches, resuming after each matched span; unmatched
   characters are kept in the residual string. -/
def pairScanF : Nat → List Char → List (List Char × List Char) × List Char
  | 0, cs => ([], cs)
  | _ + 1, [] => ([], [])
  | fuel + 1, c :: cs =>
    match matchPairAt (c :: cs) with
    | some (w, r, rest) =>
      let res := pairScanF fuel rest
      ((w, r) :: res.1, res.2)
    | none =>
      let res := pairScanF fuel cs
      (res.1, c :: res.2)

def pairScan (cs : List Char) : List (List Char × List Char) × List Char :=
  pairScanF cs.length cs

/- NUM_RE.finditer and NUM_RE.sub("", ·) in one pass.  Each match records the
   character immediately preceding its start in the scanned string (none at
   position 0), because parse_side consults work[start - 1]. -/
def numScanF : Nat → Option Char → List Char → List (Option Char × List Char) × List Char
  | 0, _, cs => ([], cs)
  | _ + 1, _, [] => ([], [])
  | fuel + 1, prev, c :: cs =>
    if pyIsDigit c then
      let t := (cs.takeWhile pyIsDigit).take 2
      let res := numScanF fuel (some (t.getLastD c)) (cs.drop t.length)
      ((prev, c :: t) :: res.1, res.2)
    else
      let res := numScanF fuel (some c) cs
      (res.1, c :: res.2)

def numScan (cs : List Char) : List (Option Char × List Char) × List Char :=
  numScanF cs.length none cs

/- The pair loop of parse_side: each pair's two tokens go through
   _parse_number; the pair is appended only when both validate, and every
   rejected token yields one digits_too_long warning. -/
def pairPhase : List (List Char × List Char) → List Nat × List Nat × List Warning
  | [] => ([], [], [])
  | (wt, rt) :: rest =>
    let res := pairPhase rest
    match parse_number wt, parse_number rt with
    | some w, some r => (w :: res.1, r :: res.2.1, res.2.2)
    | some _, none => (res.1, res.2.1, Warning.digitsTooLong rt :: res.2.2)
    | none, some _ => (res.1, res.2.1, Warning.digitsTooLong wt :: res.2.2)
    | none, none =>
      (res.1, res.2.1,
        Warning.digitsTooLong wt :: Warning.digitsTooLong rt :: res.2.2)

/- The standalone-number loop of parse_side: numbers whose preceding
   character is '#' are skipped; accepted numbers become reps paired with the
   (fixed) last pair weight. -/
def numPhase (lw : Nat) : List (Option Char × List Char) → List Nat × List Nat × List Warning
  | [] => ([], [], [])
  | (prev, tok) :: rest =>
    let res := numPhase lw rest
    if prev = some '#' then res
    else
      match parse_number tok with
      | some r => (lw :: res.1, r :: res.2.1, res.2.2)
      | none => (res.1, res.2.1, Warning.digitsTooLong tok :: res.2.2)

/- data.replace("×", "x") -/
def canonSep (data : List Char) : List Char :=
  data.map fun c => if c == '×' then 'x' else c

/- parse_side(data, original_line).  The original_line argument only feeds
   the warning messages in the Python and is dropped here. -/
def parse_side (data : List Char) : SideResult :=
  let work := canonSep data
  let scanned := pairScan work
  let pp := pairPhase scanned.1
  let lastW := pp.1.getLastD 0
  let ns := numScan scanned.2
  let np := numPhase lastW ns.1
  let leftover := stripCommas (pyStrip ns.2)
  let cleaned := pyStrip leftover
  { weights := pp.1 ++ np.1
    reps := pp.2.1 ++ np.2.1
    extra_text := if cleaned.isEmpty then none else some cleaned
    warnings := pp.2.2 ++ np.2.2 }






/- join_numbers: ",".join(str(n) for n in nums) -/
def join_numbers (nums : List Nat) : List Char :=
  List.intercalate [','] (nums.map fun n => Nat.toDigits 10 n)

/- The ExerciseData dataclass.  reps_left/weight_left are strings;
   reps_right/weight_right are Optional[str] (None for unilateral). -/
structure ExerciseData where
  exercise_name : List Char
  laterality : List Char
  reps_left : List Char
  reps_right : Option (List Char)
  sets : Nat
  weight_left : List Char
  weight_right : Option (List Char)
  extra_text : Option (List Char)
  deriving DecidableEq

/- The dict built by ExerciseData.to_dict: a None value (from `x or None`) is
   modelled as none; the extra_text key is present only when truthy. -/
structure SerializedRecord where
  exercise_name : List Char
  laterality : List Char
  reps_left : Option (List Char)
  reps_right : Option (List Char)
  sets : Nat
  weight_left : Option (List Char)
  weight_right : Option (List Char)
  extra_text : Option (List Char)
  deriving DecidableEq

def to_dict (e : ExerciseData) : SerializedRecord :=
  { exercise_name := e.exercise_name
    laterality := e.laterality
    reps_left := if e.reps_left.isEmpty then none else some e.reps_left
    reps_right := e.reps_right
    sets := e.sets
    weight_left := if e.weight_left.isEmpty then none else some e.weight_left
    weight_right := e.weight_right
    extra_text :=
      match e.extra_text with
      | none => none
      | some t => if t.isEmpty then none else some t }

def lMark : List Char := ['L', ' ', '-']

def rMark : List Char := ['R', ' ', '-']

/- str.find(pat): index of the leftmost occurrence. -/
def findSub (pat : List Char) : List Char → Option Nat
  | [] => if pat.isEmpty then some 0 else none
  | c :: cs => if pat.isPrefixOf (c :: cs) then some 0 else (findSub pat cs).map (· + 1)

/- s.split(pat, 1) when it yields two pieces; none models the ValueError the
   Python raises when unpacking the single piece returned for a missing
   separator (`left_part, right_part = rest.split("R -", 1)`). -/
def splitOnce (pat l : List Char) : Option (List Char × List Char) :=
  (findSub pat l).map fun i => (l.take i, l.drop (i + pat.length))

/- " ".join(filter(None, [left_extra, right_extra])) or None -/
def joinExtras (a b : Option (List Char)) : Option (List Char) :=
  let parts := ([a, b].filterMap id).filter fun t => !t.isEmpty
  let j := List.intercalate [' '] parts
  if j.isEmpty then none else some j

/- The per-box body of extract_exercise_data (lines 216-256): laterality
   detection, the two splits, side parsing, the side_count_mismatch check and
   record construction.  The result is none exactly where the Python raises
   (unpacking a 1-element split); warnings are returned in emission order. -/
def assemble_box (name box : List Char) : Option (ExerciseData × List Warning) :=
  if (findSub lMark box).isSome && (findSub rMark box).isSome then
    match splitOnce lMark box with
    | none => none
    | some (_, rest) =>
      match splitOnce rMark rest with
      | none => none
      | some (lp, rp) =>
        let L := parse_side lp
        let R := parse_side rp
        let mism : List Warning :=
          if L.reps.length = R.reps.length then [] else [Warning.sideCountMismatch]
        some
          ({ exercise_name := name
             laterality := "bilateral".toList
             reps_left := join_numbers L.reps
             reps_right := some (join_numbers R.reps)
             sets := max L.reps.length R.reps.length
             weight_left := join_numbers L.weights
             weight_right := some (join_numbers R.weights)
             extra_text := joinExtras L.extra_text R.extra_text },
           L.warnings ++ R.warnings ++ mism)
  else
    let S := parse_side box
    some
      ({ exercise_name := name
         laterality := "unilateral".toList
         reps_left := join_numbers S.reps
         reps_right := none
         sets := S.reps.length
         weight_left := join_numbers S.weights
         weight_right := none
         extra_text := S.extra_text },
       S.warnings)






/- The alternation (?:[LR]\s*-\s*|\d) anchored at the head of a suffix: an
   'L' or 'R', optional whitespace, then '-' (the trailing \s* always
   matches), or a single digit. -/
def matchB : List Char → Bool
  | [] => false
  | c :: rest =>
    pyIsDigit c || ((c == 'L' || c == 'R') && (rest.dropWhile pySpace).head? == some '-')

/- re.search: the least index whose suffix matches, i.e. match.start(). -/
def searchIdx : List Char → Option Nat
  | [] => none
  | c :: rest => if matchB (c :: rest) then some 0 else (searchIdx rest).map (· + 1)

def sepMark : List Char := [' ', '-', ' ']

/- One candidate position for line.rfind(" - ", 0, stop): the occurrence must
   start at i and lie entirely inside line[0:stop]. -/
def dashAt (l : List Char) (stop i : Nat) : Bool :=
  sepMark.isPrefixOf (l.drop i) && decide (i + 3 ≤ stop)

/- line.rfind(" - ", 0, stop): scan candidate start positions downward from
   stop - 1, so the first hit is the greatest occurrence. -/
def rfindDashAux (l : List Char) (stop : Nat) : Nat → Option Nat
  | 0 => none
  | k + 1 => if dashAt l stop k then some k else rfindDashAux l stop k

def pyRFindDash (l : List Char) (stop : Nat) : Option Nat :=
  rfindDashAux l stop stop

/- _extract_name: find the first left/right marker or digit; take the text
   before the nearest preceding " - ", else before the match, else the whole
   line; always strip(). -/
def extract_name (line : List Char) : List Char :=
  match searchIdx line with
  | some m =>
    match pyRFindDash line m with
    | some idx => pyStrip (line.take idx)
    | none => pyStrip (line.take m)
  | none => pyStrip line






/- Projections of the two phases of parse_side, used to state structural
   claims: the validated pairs, the accepted standalone numbers, and the
   carried-forward weight. -/
def sidePairs (s : List Char) : List (List Char × List Char) :=
  (pairScan (canonSep s)).1

def sideWork (s : List Char) : List Char :=
  (pairScan (canonSep s)).2

def validPairVals (ps : List (List Char × List Char)) : List (Nat × Nat) :=
  ps.filterMap fun p =>
    match parse_number p.1, parse_number p.2 with
    | some w, some r => some (w, r)
    | _, _ => none

def pairWeightsOf (s : List Char) : List Nat :=
  (validPairVals (sidePairs s)).map Prod.fst

def pairRepsOf (s : List Char) : List Nat :=
  (validPairVals (sidePairs s)).map Prod.snd

def numAccepted (ms : List (Option Char × List Char)) : List Nat :=
  ms.filterMap fun pt => if pt.1 = some '#' then none else parse_number pt.2

def standaloneRepsOf (s : List Char) : List Nat :=
  numAccepted (numScan (sideWork s)).1

def lastPairWeight (s : List Char) : Nat :=
  (pairWeightsOf s).getLastD 0

/- A token as produced by either regex: at most three characters, all
   decimal digits. -/
def okTok (tok : List Char) : Prop :=
  tok.length ≤ 3 ∧ tok.all pyIsDigit = true

theorem pairPhase_weights (ps : List (List Char × List Char)) :
    (pairPhase ps).1 = (validPairVals ps).map Prod.fst := by
  induction ps with
  | nil => rfl
  | cons p rest ih =>
    obtain ⟨wt, rt⟩ := p
    cases hw : parse_number wt <;> cases hr : parse_number rt <;>
      simp [pairPhase, validPairVals, List.filterMap_cons, hw, hr] <;>
      simpa [validPairVals] using ih

theorem pairPhase_reps (ps : List (List Char × List Char)) :
    (pairPhase ps).2.1 = (validPairVals ps).map Prod.snd := by
  induction ps with
  | nil => rfl
  | cons p rest ih =>
    obtain ⟨wt, rt⟩ := p
    cases hw : parse_number wt <;> cases hr : parse_number rt <;>
      simp [pairPhase, validPairVals, List.filterMap_cons, hw, hr] <;>
      simpa [validPairVals] using ih

theorem numPhase_weights (lw : Nat) (ms : List (Option Char × List Char)) :
    (numPhase lw ms).1 = List.replicate (numAccepted ms).length lw := by
  induction ms with
  | nil => rfl
  | cons pt rest ih =>
    obtain ⟨prev, tok⟩ := pt
    by_cases hp : prev = some '#'
    · simpa [numPhase, numAccepted, List.filterMap_cons, hp] using ih
    · cases ht : parse_number tok
      · simpa [numPhase, numAccepted, List.filterMap_cons, hp, ht] using ih
      · have hr := ih
        simp only [numAccepted] at hr
        simp [numPhase, numAccepted, List.filterMap_cons, hp, ht, hr, List.replicate_succ]

theorem numPhase_reps (lw : Nat) (ms : List (Option Char × List Char)) :
    (numPhase lw ms).2.1 = numAccepted ms := by
  induction ms with
  | nil => rfl
  | cons pt rest ih =>
    obtain ⟨prev, tok⟩ := pt
    by_cases hp : prev = some '#'
    · simpa [numPhase, numAccepted, List.filterMap_cons, hp] using ih
    · cases ht : parse_number tok <;>
        simp [numPhase, numAccepted, List.filterMap_cons, hp, ht] <;>
        simpa [numAccepted] using ih

theorem parse_side_weights (s : List Char) :
    (parse_side s).weights =
      pairWeightsOf s ++ List.replicate (standaloneRepsOf s).length (lastPairWeight s) := by
  simp only [parse_side, pairWeightsOf, standaloneRepsOf, lastPairWeight, sidePairs,
    sideWork, pairPhase_weights, numPhase_weights]

theorem parse_side_reps (s : List Char) :
    (parse_side s).reps = pairRepsOf s ++ standaloneRepsOf s := by
  simp only [parse_side, pairRepsOf, standaloneRepsOf, sidePairs, sideWork,
    pairPhase_reps, numPhase_reps]

theorem tryWeightTok_shape (cs : List Char) (k : Nat) (d rest : List Char)
    (h : tryWeightTok cs k = some (d, rest)) :
    d.length = k ∧ d.all pyIsDigit = true := by
  simp only [tryWeightTok] at h
  split_ifs at h with hc
  obtain rfl : cs.take k = d := congrArg Prod.fst (Option.some.inj h)
  exact ⟨hc.1, hc.2.1⟩

theorem matchWeightTok_ok (cs : List Char) (w r1 : List Char)
    (h : matchWeightTok cs = some (w, r1)) : okTok w := by
  unfold matchWeightTok at h
  cases h3 : tryWeightTok cs 3 with
  | some p =>
    rw [h3] at h
    simp only [Option.orElse] at h
    obtain rfl : p = (w, r1) := Option.some.inj h
    have := tryWeightTok_shape cs 3 w r1 h3
    exact ⟨le_of_eq this.1, this.2⟩
  | none =>
    rw [h3] at h
    simp only [Option.orElse] at h
    cases h2 : tryWeightTok cs 2 with
    | some p =>
      rw [h2] at h
      simp only [Option.orElse] at h
      obtain rfl : p = (w, r1) := Option.some.inj h
      have := tryWeightTok_shape cs 2 w r1 h2
      exact ⟨this.1 ▸ (by norm_num), this.2⟩
    | none =>
      rw [h2] at h
      simp only [Option.orElse] at h
      have := tryWeightTok_shape cs 1 w r1 h
      exact ⟨this.1 ▸ (by norm_num), this.2⟩

theorem takeWhile_take_ok (l : List Char) (n : Nat) (hn : n ≤ 3) :
    okTok ((l.takeWhile pyIsDigit).take n) := by
  constructor
  · exact le_trans (by simp [List.length_take]) hn
  · refine List.all_eq_true.mpr fun x hx => ?_
    exact List.mem_takeWhile_imp ((List.take_subset _ _) hx)

theorem matchPairAt_ok (cs w r rest : List Char)
    (h : matchPairAt cs = some (w, r, rest)) : okTok w ∧ okTok r := by
  cases hw : matchWeightTok cs with
  | none => simp [matchPairAt, hw] at h
  | some p =>
    obtain ⟨w0, r1⟩ := p
    cases hd : r1.dropWhile pySpace with
    | nil => simp [matchPairAt, hw, hd] at h
    | cons c r3 =>
      simp only [matchPairAt, hw, hd] at h
      split_ifs at h with hx he
      simp only [Option.some.injEq, Prod.mk.injEq] at h
      obtain ⟨rfl, rfl, -⟩ := h
      exact ⟨matchWeightTok_ok cs _ r1 hw, takeWhile_take_ok _ 3 le_rfl⟩

theorem pairScanF_tok (fuel : Nat) :
    ∀ cs p, p ∈ (pairScanF fuel cs).1 → okTok p.1 ∧ okTok p.2 := by
  induction fuel with
  | zero => intro cs p hp; simp [pairScanF] at hp
  | succ f ih =>
    intro cs p hp
    cases cs with
    | nil => simp [pairScanF] at hp
    | cons c rest =>
      cases h : matchPairAt (c :: rest) with
      | some t =>
        obtain ⟨w, r, rem⟩ := t
        rw [pairScanF, h] at hp
        simp only [List.mem_cons] at hp
        rcases hp with rfl | hp
        · exact matchPairAt_ok _ _ _ _ h
        · exact ih rem p hp
      | none =>
        rw [pairScanF, h] at hp
        exact ih rest p hp

theorem numScanF_tok (fuel : Nat) :
    ∀ prev cs pt, pt ∈ (numScanF fuel prev cs).1 → okTok pt.2 := by
  induction fuel with
  | zero => intro prev cs pt hp; simp [numScanF] at hp
  | succ f ih =>
    intro prev cs pt hp
    cases cs with
    | nil => simp [numScanF] at hp
    | cons c rest =>
      by_cases hc : pyIsDigit c = true
      · rw [numScanF, if_pos hc] at hp
        simp only [List.mem_cons] at hp
        rcases hp with rfl | hp
        · constructor
          · have : ((rest.takeWhile pyIsDigit).take 2).length ≤ 2 := by
              simp [List.length_take]
            simp only [List.length_cons]
            omega
          · refine List.all_eq_true.mpr fun x hx => ?_
            simp only [List.mem_cons] at hx
            rcases hx with rfl | hx
            · exact hc
            · exact List.mem_takeWhile_imp ((List.take_subset _ _) hx)
        · exact ih _ _ pt hp
      · rw [numScanF, if_neg hc] at hp
        exact ih _ _ pt hp

theorem digitsToNat_nil (acc : Nat) : digitsToNat acc [] = acc := rfl

theorem digitsToNat_cons (acc : Nat) (c : Char) (cs : List Char) :
    digitsToNat acc (c :: cs) = digitsToNat (acc * 10 + (c.toNat - 48)) cs := rfl

theorem digitsToNat_lt (tok : List Char) :
    ∀ acc, tok.all pyIsDigit = true → digitsToNat acc tok < (acc + 1) * 10 ^ tok.length := by
  induction tok with
  | nil =>
    intro acc _
    rw [digitsToNat_nil]
    simp
  | cons c cs ih =>
    intro acc h
    simp only [List.all_cons, Bool.and_eq_true] at h
    have hd : c.toNat - 48 ≤ 9 := by
      have h1 := h.1
      simp only [pyIsDigit, Bool.and_eq_true, decide_eq_true_eq] at h1
      omega
    have step : digitsToNat (acc * 10 + (c.toNat - 48)) cs <
        (acc * 10 + (c.toNat - 48) + 1) * 10 ^ cs.length := ih _ h.2
    have mono : (acc * 10 + (c.toNat - 48) + 1) * 10 ^ cs.length ≤
        ((acc + 1) * 10) * 10 ^ cs.length :=
      Nat.mul_le_mul_right _ (by omega)
    have hlt : digitsToNat acc (c :: cs) < ((acc + 1) * 10) * 10 ^ cs.length :=
      lt_of_lt_of_le (by rw [digitsToNat_cons]; exact step) mono
    calc digitsToNat acc (c :: cs) < ((acc + 1) * 10) * 10 ^ cs.length := hlt
      _ = (acc + 1) * 10 ^ (c :: cs).length := by
          simp [List.length_cons, pow_succ]; ring

theorem parse_number_le (tok : List Char) (n : Nat)
    (h : okTok tok) (hp : parse_number tok = some n) : n ≤ 999 := by
  unfold parse_number at hp
  split_ifs at hp with hlen
  obtain rfl : digitsToNat 0 tok = n := Option.some.inj hp
  have := digitsToNat_lt tok 0 h.2
  have hpow : 10 ^ tok.length ≤ 10 ^ 3 :=
    Nat.pow_le_pow_right (by norm_num) h.1
  omega

theorem getLastD_zero_cases (l : List Nat) : l.getLastD 0 = 0 ∨ l.getLastD 0 ∈ l := by
  rw [List.getLastD_eq_getLast?]
  cases h : l.getLast? with
  | none => left; rfl
  | some a =>
    right
    simpa using List.mem_of_mem_getLast? (by simp [h])

theorem pairPhase_no_mismatch (ps : List (List Char × List Char)) :
    Warning.sideCountMismatch ∉ (pairPhase ps).2.2 := by
  induction ps with
  | nil => simp [pairPhase]
  | cons p rest ih =>
    obtain ⟨wt, rt⟩ := p
    cases hw : parse_number wt <;> cases hr : parse_number rt <;>
      simp [pairPhase, hw, hr, ih]

theorem numPhase_no_mismatch (lw : Nat) (ms : List (Option Char × List Char)) :
    Warning.sideCountMismatch ∉ (numPhase lw ms).2.2 := by
  induction ms with
  | nil => simp [numPhase]
  | cons pt rest ih =>
    obtain ⟨prev, tok⟩ := pt
    by_cases hp : prev = some '#'
    · simpa [numPhase, hp] using ih
    · cases ht : parse_number tok <;> simp [numPhase, hp, ht, ih]

theorem parse_side_no_mismatch (s : List Char) :
    Warning.sideCountMismatch ∉ (parse_side s).warnings := by
  simp only [parse_side, List.mem_append]
  rintro (h | h)
  · exact pairPhase_no_mismatch _ h
  · exact numPhase_no_mismatch _ _ h

theorem matchB_nil : matchB [] = false := rfl

theorem matchB_lt_length (l : List Char) (m : Nat)
    (h : matchB (l.drop m) = true) : m < l.length := by
  by_contra hm
  push_neg at hm
  rw [List.drop_eq_nil_of_le hm] at h
  rw [matchB_nil] at h
  exact Bool.false_ne_true h

theorem searchIdx_spec (l : List Char) :
    ∀ m, searchIdx l = some m →
      matchB (l.drop m) = true ∧ ∀ k, k < m → matchB (l.drop k) = false := by
  induction l with
  | nil => intro m h; simp [searchIdx] at h
  | cons c rest ih =>
    intro m h
    by_cases hm : matchB (c :: rest) = true
    · rw [searchIdx, if_pos hm] at h
      obtain rfl : (0 : Nat) = m := Option.some.inj h
      exact ⟨by simpa using hm, fun k hk => absurd hk (Nat.not_lt_zero k)⟩
    · rw [searchIdx, if_neg hm] at h
      cases hr : searchIdx rest with
      | none => rw [hr] at h; exact absurd h (by simp)
      | some m' =>
        rw [hr] at h
        simp only [Option.map_some'] at h
        obtain rfl : m' + 1 = m := Option.some.inj h
        obtain ⟨h1, h2⟩ := ih m' hr
        refine ⟨by simpa [List.drop_succ_cons] using h1, ?_⟩
        intro k hk
        cases k with
        | zero => simpa using hm
        | succ k' =>
          rw [List.drop_succ_cons]
          exact h2 k' (Nat.lt_of_succ_lt_succ hk)

theorem searchIdx_none (l : List Char) :
    searchIdx l = none → ∀ k, matchB (l.drop k) = false := by
  induction l with
  | nil => intro _ k; rw [List.drop_nil, matchB_nil]
  | cons c rest ih =>
    intro h k
    by_cases hm : matchB (c :: rest) = true
    · rw [searchIdx, if_pos hm] at h; exact absurd h (by simp)
    · rw [searchIdx, if_neg hm] at h
      have hr : searchIdx rest = none := by
        cases hr : searchIdx rest with
        | none => rfl
        | some m => rw [hr] at h; simp at h
      cases k with
      | zero => simpa using hm
      | succ k' =>
        rw [List.drop_succ_cons]
        exact ih hr k'

theorem rfindDashAux_some (l : List Char) (stop : Nat) :
    ∀ k i, rfindDashAux l stop k = some i →
      i < k ∧ dashAt l stop i = true ∧
        ∀ j, i < j → j < k → dashAt l stop j = false := by
  intro k
  induction k with
  | zero => intro i h; simp [rfindDashAux] at h
  | succ k' ih =>
    intro i h
    by_cases hd : dashAt l stop k' = true
    · rw [rfindDashAux, if_pos hd] at h
      obtain rfl : k' = i := Option.some.inj h
      refine ⟨Nat.lt_succ_self _, hd, fun j hj1 hj2 => ?_⟩
      exact absurd hj2 (by omega)
    · rw [rfindDashAux, if_neg hd] at h
      obtain ⟨h1, h2, h3⟩ := ih i h
      refine ⟨Nat.lt_succ_of_lt h1, h2, fun j hj1 hj2 => ?_⟩
      rcases Nat.lt_succ_iff_lt_or_eq.mp hj2 with hj | rfl
      · exact h3 j hj1 hj
      · simpa using hd

theorem rfindDashAux_none (l : List Char) (stop : Nat) :
    ∀ k, rfindDashAux l stop k = none → ∀ j, j < k → dashAt l stop j = false := by
  intro k
  induction k with
  | zero => intro _ j hj; exact absurd hj (Nat.not_lt_zero j)
  | succ k' ih =>
    intro h j hj
    by_cases hd : dashAt l stop k' = true
    · rw [rfindDashAux, if_pos hd] at h; exact absurd h (by simp)
    · rw [rfindDashAux, if_neg hd] at h
      rcases Nat.lt_succ_iff_lt_or_eq.mp hj with hj' | rfl
      · exact ih h j hj'
      · simpa using hd

theorem mem_validPairVals_le (s : List Char) (w r : Nat)
    (h : (w, r) ∈ validPairVals (sidePairs s)) : w ≤ 999 ∧ r ≤ 999 := by
  simp only [validPairVals, List.mem_filterMap] at h
  obtain ⟨p, hp, he⟩ := h
  have hok : okTok p.1 ∧ okTok p.2 := by
    simp only [sidePairs, pairScan] at hp
    exact pairScanF_tok _ _ p hp
  cases h1 : parse_number p.1 with
  | none => rw [h1] at he; exact absurd he (by simp)
  | some w' =>
    cases h2 : parse_number p.2 with
    | none => rw [h1, h2] at he; exact absurd he (by simp)
    | some r' =>
      rw [h1, h2] at he
      obtain ⟨rfl, rfl⟩ : w' = w ∧ r' = r := by
        have := Option.some.inj he
        exact ⟨congrArg Prod.fst this, congrArg Prod.snd this⟩
      exact ⟨parse_number_le _ _ hok.1 h1, parse_number_le _ _ hok.2 h2⟩

theorem mem_pairWeightsOf_le (s : List Char) (w : Nat)
    (h : w ∈ pairWeightsOf s) : w ≤ 999 := by
  simp only [pairWeightsOf, List.mem_map] at h
  obtain ⟨⟨w', r'⟩, hm, rfl⟩ := h
  exact (mem_validPairVals_le s w' r' hm).1

theorem mem_pairRepsOf_le (s : List Char) (r : Nat)
    (h : r ∈ pairRepsOf s) : r ≤ 999 := by
  simp only [pairRepsOf, List.mem_map] at h
  obtain ⟨⟨w', r'⟩, hm, rfl⟩ := h
  exact (mem_validPairVals_le s w' r' hm).2

theorem lastPairWeight_le (s : List Char) : lastPairWeight s ≤ 999 := by
  rcases getLastD_zero_cases (pairWeightsOf s) with h | h
  · rw [lastPairWeight, h]; omega
  · exact mem_pairWeightsOf_le s _ h

theorem mem_standaloneRepsOf_le (s : List Char) (r : Nat)
    (h : r ∈ standaloneRepsOf s) : r ≤ 999 := by
  simp only [standaloneRepsOf, numAccepted, List.mem_filterMap] at h
  obtain ⟨pt, hpt, he⟩ := h
  have hok : okTok pt.2 := by
    simp only [numScan] at hpt
    exact numScanF_tok _ _ _ pt hpt
  by_cases hp : pt.1 = some '#'
  · rw [if_pos hp] at he; exact absurd he (by simp)
  · rw [if_neg hp] at he
    exact parse_number_le _ _ hok he

/-- Claim C1 (refuted; the code contradicts its stated never-crash design):
for the box text "R - 5 L - 3" the bilateral containment check passes, but
the text after the first "L -" contains no "R -", so the Python unpacking
`left_part, right_part = rest.split("R -", 1)` raises ValueError.  In the
embedding assemble_box returns none exactly on that raising path. -/
theorem claim_C1_crash : assemble_box "E".toList "R - 5 L - 3".toList = none := by
  decide

/-- Claim C2 (refuted; the digit-length validator is dead code): both regex
patterns cap tokens at three digits, so the run "1234" is tokenized as "123"
followed by "4", both of which are accepted as repetitions, and no
digits_too_long warning is ever produced. -/
theorem claim_C2_eval :
    parse_side "1234".toList =
      { weights := [0, 0], reps := [123, 4], extra_text := none, warnings := [] } := by
  decide

/-- Claim C3: for every input string, the SideResult returned by parse_side
has exactly as many weights as reps; both phases append to the two lists in
matched pairs. -/
theorem claim_C3_side_lengths (s : List Char) :
    (parse_side s).weights.length = (parse_side s).reps.length := by
  rw [parse_side_weights, parse_side_reps]
  simp [pairWeightsOf, pairRepsOf, List.length_append, List.length_map,
    List.length_replicate]

/-- Claim C5, counterexample: on "#4 Hole × 18, 8" the residue is
"# Hole x", not "Hole" — NUM_RE.sub removes the '#'-preceded digit "4" from
the text, so it is not kept as residue as the claim states. -/
theorem claim_C5_cex :
    (parse_side "#4 Hole × 18, 8".toList).extra_text ≠ some "Hole".toList ∧
    (parse_side "#4 Hole × 18, 8".toList).extra_text = some "# Hole x".toList := by
  decide

/-- Claim C5 as amended: a 1-3 digit number immediately preceded by '#' is
excluded from reps and weights, and it is deleted from the text rather than
kept in the residue; the scenario "#4 Hole × 18, 8" yields weights=[0,0],
reps=[18,8] and extra_text="# Hole x". -/
theorem claim_C5_amended :
    (∀ s : List Char,
      (parse_side s).reps = pairRepsOf s ++ standaloneRepsOf s ∧
      (parse_side s).weights =
        pairWeightsOf s ++ List.replicate (standaloneRepsOf s).length (lastPairWeight s)) ∧
    parse_side "#4 Hole × 18, 8".toList =
      { weights := [0, 0], reps := [18, 8], extra_text := some "# Hole x".toList,
        warnings := [] } := by
  exact ⟨fun s => ⟨parse_side_reps s, parse_side_weights s⟩, by decide⟩

/-- Claim C6: every accepted standalone number becomes a repetition paired
with the weight carried from the last explicit pair (0 when no pair was
seen); "90# x 10, 8" gives weights=[90,90], reps=[10,8], sets=2 and
"19, 12" gives weights=[0,0], reps=[19,12], sets=2. -/
theorem claim_C6_weight_carry :
    (∀ s : List Char,
      (parse_side s).weights =
        pairWeightsOf s ++ List.replicate (standaloneRepsOf s).length (lastPairWeight s) ∧
      (parse_side s).reps = pairRepsOf s ++ standaloneRepsOf s) ∧
    (assemble_box "E".toList "90# x 10, 8".toList).map
        (fun p => (p.1.weight_left, p.1.reps_left, p.1.sets)) =
      some ("90,90".toList, "10,8".toList, 2) ∧
    (assemble_box "E".toList "19, 12".toList).map
        (fun p => (p.1.weight_left, p.1.reps_left, p.1.sets)) =
      some ("0,0".toList, "19,12".toList, 2) := by
  exact ⟨fun s => ⟨parse_side_weights s, parse_side_reps s⟩, by decide, by decide⟩

/-- Claim C7, counterexample: for the bilateral box "L - 5 R -" the right
side parses to empty sequences and the serialized record carries the empty
string (not an absent value) in reps_right and weight_right, because to_dict
applies `or None` only to the left-side fields. -/
theorem claim_C7_cex :
    (assemble_box "E".toList "L - 5 R -".toList).map
        (fun p => ((to_dict p.1).reps_right, (to_dict p.1).weight_right)) =
      some (some [], some []) := by
  decide

/-- Claim C7 as amended: the serializer renders empty reps_left/weight_left
as an absent value, passes reps_right/weight_right through unchanged (so an
empty bilateral right side serializes as the empty string), and omits
extra_text exactly when it is absent or empty. -/
theorem claim_C7_amended (e : ExerciseData) :
    ((to_dict e).reps_left = none ↔ e.reps_left = []) ∧
    ((to_dict e).weight_left = none ↔ e.weight_left = []) ∧
    (to_dict e).reps_right = e.reps_right ∧
    (to_dict e).weight_right = e.weight_right ∧
    ((to_dict e).extra_text = none ↔ e.extra_text = none ∨ e.extra_text = some []) := by
  refine ⟨?_, ?_, rfl, rfl, ?_⟩
  · simp [to_dict, List.isEmpty_iff]
  · simp [to_dict, List.isEmpty_iff]
  · cases h : e.extra_text with
    | none => simp [to_dict, h]
    | some t =>
      by_cases ht : t.isEmpty = true
      · simp [to_dict, h, ht, List.isEmpty_iff.mp ht]
      · simp only [to_dict, h, if_neg ht]
        simp only [List.isEmpty_iff] at ht
        simp [ht]

/-- Claim C9: parse_side never fails and every weight and rep it produces is
at most 999: the regex tokens carry at most three digits and the carried
weight is either 0 or an earlier pair weight. -/
theorem claim_C9_bounds (s : List Char) :
    (∀ w ∈ (parse_side s).weights, w ≤ 999) ∧
    (∀ r ∈ (parse_side s).reps, r ≤ 999) := by
  constructor
  · intro w hw
    rw [parse_side_weights] at hw
    rcases List.mem_append.mp hw with h | h
    · exact mem_pairWeightsOf_le s w h
    · rw [List.eq_of_mem_replicate h]
      exact lastPairWeight_le s
  · intro r hr
    rw [parse_side_reps] at hr
    rcases List.mem_append.mp hr with h | h
    · exact mem_pairRepsOf_le s r h
    · exact mem_standaloneRepsOf_le s r h

/-- Claim C9 witness: the bound instantiated at "90# x 10, 8" and its first
weight entry 90. -/
theorem claim_C9_witness : (90 : Nat) ≤ 999 :=
  (claim_C9_bounds "90# x 10, 8".toList).1 90 (by decide)

/-- Claim C10: reps from explicit pairs always precede reps from standalone
numbers regardless of text order; "8, 90# x 10" yields reps [10, 8] rather
than the text order [8, 10]. -/
theorem claim_C10_two_pass :
    (∀ s : List Char, (parse_side s).reps = pairRepsOf s ++ standaloneRepsOf s) ∧
    (parse_side "8, 90# x 10".toList).reps = [10, 8] := by
  exact ⟨parse_side_reps, by decide⟩

/-- Claim C4: on a bilateral box (both markers present and the text after
the first "L -" splits at "R -" into the two side texts), a
side_count_mismatch warning is emitted iff the two sides' rep counts
differ, sets is the max of the two counts, and both serialized sides are
the joins of the true, unpadded parse results. -/
theorem claim_C4_mismatch (name box pre rest lp rp : List Char)
    (rec : ExerciseData) (ws : List Warning)
    (h1 : splitOnce lMark box = some (pre, rest))
    (h2 : splitOnce rMark rest = some (lp, rp))
    (h3 : (findSub rMark box).isSome = true)
    (h4 : assemble_box name box = some (rec, ws)) :
    (Warning.sideCountMismatch ∈ ws ↔
      (parse_side lp).reps.length ≠ (parse_side rp).reps.length) ∧
    rec.sets = max (parse_side lp).reps.length (parse_side rp).reps.length ∧
    rec.reps_left = join_numbers (parse_side lp).reps ∧
    rec.reps_right = some (join_numbers (parse_side rp).reps) := by
  have hL : (findSub lMark box).isSome = true := by
    unfold splitOnce at h1
    cases hf : findSub lMark box with
    | none => rw [hf] at h1; exact absurd h1 (by simp)
    | some i => simp [hf]
  unfold assemble_box at h4
  rw [hL, h3] at h4
  simp only [Bool.and_self, if_true] at h4
  simp only [h1] at h4
  simp only [h2] at h4
  simp only [Option.some.injEq, Prod.mk.injEq] at h4
  obtain ⟨rfl, rfl⟩ := h4
  refine ⟨?_, rfl, rfl, rfl⟩
  have nl := parse_side_no_mismatch lp
  have nr := parse_side_no_mismatch rp
  by_cases hlen : (parse_side lp).reps.length = (parse_side rp).reps.length
  · simp [hlen, List.mem_append, nl, nr]
  · simp [hlen, List.mem_append]

/-- Claim C4 witness: the mismatch scenario "L - 10, 8 R - 10" (left reps
[10, 8], right reps [10]) emits the side_count_mismatch warning. -/
theorem claim_C4_witness :
    Warning.sideCountMismatch ∈ ([Warning.sideCountMismatch] : List Warning) ↔
      (parse_side " 10, 8 ".toList).reps.length ≠ (parse_side " 10".toList).reps.length :=
  (claim_C4_mismatch "E".toList "L - 10, 8 R - 10".toList [] " 10, 8 R - 10".toList
    " 10, 8 ".toList " 10".toList
    { exercise_name := "E".toList
      laterality := "bilateral".toList
      reps_left := "10,8".toList
      reps_right := some "10".toList
      sets := 2
      weight_left := "0,0".toList
      weight_right := some "0".toList
      extra_text := none }
    [Warning.sideCountMismatch]
    (by decide) (by decide) (by decide) (by decide)).1

theorem searchIdx_of_least (line : List Char) (m : Nat)
    (hm : matchB (line.drop m) = true)
    (hleast : ∀ k, k < m → matchB (line.drop k) = false) :
    searchIdx line = some m := by
  cases hq : searchIdx line with
  | none =>
    have := searchIdx_none line hq m
    rw [this] at hm
    exact absurd hm (by simp)
  | some m' =>
    obtain ⟨hm', hleast'⟩ := searchIdx_spec line m' hq
    rcases Nat.lt_trichotomy m m' with h | h | h
    · have := hleast' m h
      rw [this] at hm
      exact absurd hm (by simp)
    · subst h; rfl
    · have := hleast m' h
      rw [this] at hm'
      exact absurd hm' (by simp)

theorem pyRFindDash_of_greatest (line : List Char) (m i : Nat)
    (hmlen : m < line.length)
    (hpre : sepMark.isPrefixOf (line.drop i) = true)
    (hle : i + 3 ≤ m)
    (hmax : ∀ j, j < line.length → sepMark.isPrefixOf (line.drop j) = true →
      j + 3 ≤ m → j ≤ i) :
    pyRFindDash line m = some i := by
  unfold pyRFindDash
  cases hq : rfindDashAux line m m with
  | none =>
    have hfalse := rfindDashAux_none line m m hq i (by omega)
    exact absurd hfalse (by simp [dashAt, hpre, hle])
  | some j =>
    obtain ⟨hjm, hd, hmax'⟩ := rfindDashAux_some line m m j hq
    have hd' : sepMark.isPrefixOf (line.drop j) = true ∧ j + 3 ≤ m := by
      simpa [dashAt, Bool.and_eq_true, decide_eq_true_eq] using hd
    have h1 : j ≤ i := hmax j (by omega) hd'.1 hd'.2
    have h2 : i ≤ j := by
      by_contra hlt
      push_neg at hlt
      have := hmax' i hlt (by omega)
      exact absurd this (by simp [dashAt, hpre, hle])
    have : i = j := le_antisymm h2 h1
    rw [this]

theorem pyRFindDash_none_of (line : List Char) (m : Nat)
    (hmlen : m < line.length)
    (hnone : ∀ j, j < line.length →
      ¬(sepMark.isPrefixOf (line.drop j) = true ∧ j + 3 ≤ m)) :
    pyRFindDash line m = none := by
  unfold pyRFindDash
  cases hq : rfindDashAux line m m with
  | none => rfl
  | some j =>
    obtain ⟨hjm, hd, -⟩ := rfindDashAux_some line m m j hq
    have hd' : sepMark.isPrefixOf (line.drop j) = true ∧ j + 3 ≤ m := by
      simpa [dashAt, Bool.and_eq_true, decide_eq_true_eq] using hd
    exact absurd hd' (hnone j (by omega))

/-- Claim C8: the resolved exercise name is the stripped text before the
nearest " - " delimiter wholly preceding the first left/right-marker-or-digit
match; the stripped text before the match itself when no such delimiter
exists; and the whole stripped line when nothing matches. -/
theorem claim_C8_name_resolution :
    (∀ line : List Char, ∀ m i : Nat,
      matchB (line.drop m) = true →
      (∀ k, k < m → matchB (line.drop k) = false) →
      sepMark.isPrefixOf (line.drop i) = true →
      i + 3 ≤ m →
      (∀ j, j < line.length → sepMark.isPrefixOf (line.drop j) = true →
        j + 3 ≤ m → j ≤ i) →
      extract_name line = pyStrip (line.take i)) ∧
    (∀ line : List Char, ∀ m : Nat,
      matchB (line.drop m) = true →
      (∀ k, k < m → matchB (line.drop k) = false) →
      (∀ j, j < line.length →
        ¬(sepMark.isPrefixOf (line.drop j) = true ∧ j + 3 ≤ m)) →
      extract_name line = pyStrip (line.take m)) ∧
    (∀ line : List Char,
      (∀ k, k < line.length → matchB (line.drop k) = false) →
      extract_name line = pyStrip line) := by
  refine ⟨?_, ?_, ?_⟩
  · intro line m i hm hleast hpre hle hmax
    have hs : searchIdx line = some m := searchIdx_of_least line m hm hleast
    have hmlen : m < line.length := matchB_lt_length line m hm
    have hr : pyRFindDash line m = some i :=
      pyRFindDash_of_greatest line m i hmlen hpre hle hmax
    simp only [extract_name, hs, hr]
  · intro line m hm hleast hnone
    have hs : searchIdx line = some m := searchIdx_of_least line m hm hleast
    have hmlen : m < line.length := matchB_lt_length line m hm
    have hr : pyRFindDash line m = none := pyRFindDash_none_of line m hmlen hnone
    simp only [extract_name, hs, hr]
  · intro line hnone
    have hs : searchIdx line = none := by
      cases hq : searchIdx line with
      | none => rfl
      | some m =>
        obtain ⟨hm', -⟩ := searchIdx_spec line m hq
        have hlt := matchB_lt_length line m hm'
        have := hnone m hlt
        rw [this] at hm'
        exact absurd hm' (by simp)
    simp only [extract_name, hs]

/-- Claim C8 witness: on "Squat - 90" the first match is the digit at index
8, the greatest preceding " - " starts at index 5, and the name is the text
before it. -/
theorem claim_C8_witness :
    extract_name "Squat - 90".toList = pyStrip (("Squat - 90".toList).take 5) :=
  claim_C8_name_resolution.1 "Squat - 90".toList 8 5 (by decide) (by decide)
    (by decide) (by decide) (by decide)
